import Mathlib

/-!
Verification of MIXR claims against a shallow embedding of the relevant code.

Part 1: the `PeriodicTask` fixed-rate task loop.  The repository ships only the
header `include/mixr/base/concurrent/PeriodicTask.hpp` (declarations and doc
comments); the defining `.cpp` (constructor and `mainThreadFunc`) is not under
`src/`, so the loop is modelled from the spec (section 4.1 main loop algorithm).

Time is modelled with rationals.  The environment supplies, for each loop
iteration, the elapsed wall-clock time of that iteration (step c of the spec's
algorithm); the model records the `dt` handed to each `userFunc` invocation in
the ghost field `dtLog`, oldest first.
-/

namespace Mixr

/-- Modelled from the spec: state of a `PeriodicTask` (the defining
`PeriodicTask.cpp` is missing from `src/`; fields follow the header's private
data `rate`, `bfStats`, `tcnt`, `vdtFlg` and spec section 3).  `nextDt` is the
delta time that the next `userFunc` invocation will receive; `dtLog` is ghost
instrumentation listing every `dt` value passed to `userFunc` so far. -/
structure PTask where
  rate : ℚ
  vdtFlg : Bool
  tcnt : ℕ
  bfStats : List ℚ
  nextDt : ℚ
  dtLog : List ℚ
  deriving Repr, DecidableEq

/-- Period of the task, spec step 1: `period = 1/rate`. -/
def PTask.period (t : PTask) : ℚ := 1 / t.rate

/-- Modelled from the spec: freshly created task state, before any loop
iteration: zero frame count, empty statistics, first `dt` is the period. -/
def PTask.init (rate : ℚ) (vdt : Bool) : PTask :=
  { rate := rate, vdtFlg := vdt, tcnt := 0, bfStats := [], nextDt := 1 / rate, dtLog := [] }

/-- Modelled from the spec: one iteration of the main loop (steps a-f of spec
section 4.1) in which `userFunc` plus scheduler jitter consumed `elapsed`
seconds of wall-clock time.  `userFunc` receives `t.nextDt` (recorded in
`dtLog`); if `elapsed > period` the overrun `elapsed - period` is recorded into
`bfStats` and, when the variable-delta-time flag is set, the next iteration's
`dt` becomes `elapsed`; the total frame count is incremented once. -/
def PTask.step (t : PTask) (elapsed : ℚ) : PTask :=
  { t with
    dtLog := t.dtLog ++ [t.nextDt]
    bfStats := if t.period < elapsed then t.bfStats ++ [elapsed - t.period] else t.bfStats
    nextDt := if t.vdtFlg ∧ t.period < elapsed then elapsed else t.period
    tcnt := t.tcnt + 1 }

/-- Modelled from the spec: run the main loop for one iteration per entry of
`es`, the list of per-iteration elapsed times (shutdown arrives when the list
is exhausted). -/
def PTask.run (t : PTask) (es : List ℚ) : PTask := es.foldl PTask.step t

/-- Error raised when a `PeriodicTask` is constructed with a non-positive
rate (spec section 7). -/
inductive ConstructError where
  | invalidRate
  deriving Repr, DecidableEq

/-- Modelled from the spec: `construct(owner, priority, rate)` with the
fail-fast choice of spec section 7 — a non-positive rate yields
`InvalidRateError` and no task; the owner and priority hints play no role in
the loop logic and are omitted. -/
def construct (rate : ℚ) : Except ConstructError PTask :=
  if rate ≤ 0 then Except.error ConstructError.invalidRate
  else Except.ok (PTask.init rate false)

/-- `setVariableDeltaTimeFlag`: sets the flag, always returns true
(header declaration; behaviour from spec section 4.1). -/
def PTask.setVariableDeltaTimeFlag (t : PTask) (enable : Bool) : PTask × Bool :=
  ({ t with vdtFlg := enable }, true)

/-- `getRate` accessor from the header. -/
def PTask.getRate (t : PTask) : ℚ := t.rate

/-- `getTotalFrameCount` accessor from the header. -/
def PTask.getTotalFrameCount (t : PTask) : ℕ := t.tcnt

/-- `getBustedFrameStats` accessor from the header (the `Statistic` is
modelled by its list of recorded samples; its count is the list length). -/
def PTask.getBustedFrameStats (t : PTask) : List ℚ := t.bfStats

/-- `isVariableDeltaTimeEnabled` accessor from the header. -/
def PTask.isVariableDeltaTimeEnabled (t : PTask) : Bool := t.vdtFlg

/-- Modelled from the spec: the main loop with an explicit cooperative
shutdown signal, polled at each iteration boundary (spec steps 2-3).
`shut n` tells whether the owning component has signalled shutdown by the
time the loop reaches its n-th iteration boundary; `el n` is the elapsed
time of iteration n; `fuel` bounds the number of boundaries examined. -/
def PTask.runShut (shut : ℕ → Bool) (el : ℕ → ℚ) : ℕ → PTask → PTask
  | 0, t => t
  | fuel + 1, t =>
      if shut t.tcnt then t
      else PTask.runShut shut el fuel (t.step (el t.tcnt))

namespace PTask

@[simp] theorem step_rate (t : PTask) (e : ℚ) : (t.step e).rate = t.rate := rfl

@[simp] theorem step_vdtFlg (t : PTask) (e : ℚ) : (t.step e).vdtFlg = t.vdtFlg := rfl

@[simp] theorem step_tcnt (t : PTask) (e : ℚ) : (t.step e).tcnt = t.tcnt + 1 := rfl

@[simp] theorem step_period (t : PTask) (e : ℚ) : (t.step e).period = t.period := rfl

@[simp] theorem step_dtLog (t : PTask) (e : ℚ) :
    (t.step e).dtLog = t.dtLog ++ [t.nextDt] := rfl

theorem step_bfStats (t : PTask) (e : ℚ) :
    (t.step e).bfStats
      = if t.period < e then t.bfStats ++ [e - t.period] else t.bfStats := rfl

@[simp] theorem run_nil (t : PTask) : t.run [] = t := rfl

@[simp] theorem run_cons (t : PTask) (e : ℚ) (es : List ℚ) :
    t.run (e :: es) = (t.step e).run es := rfl

theorem run_append (t : PTask) (es fs : List ℚ) :
    t.run (es ++ fs) = (t.run es).run fs := by
  simp [run, List.foldl_append]

@[simp] theorem run_rate (t : PTask) (es : List ℚ) : (t.run es).rate = t.rate := by
  induction es generalizing t with
  | nil => rfl
  | cons e es ih => simpa using ih (t.step e)

@[simp] theorem run_vdtFlg (t : PTask) (es : List ℚ) : (t.run es).vdtFlg = t.vdtFlg := by
  induction es generalizing t with
  | nil => rfl
  | cons e es ih => simpa using ih (t.step e)

@[simp] theorem run_period (t : PTask) (es : List ℚ) : (t.run es).period = t.period := by
  simp [period]

theorem run_tcnt (t : PTask) (es : List ℚ) : (t.run es).tcnt = t.tcnt + es.length := by
  induction es generalizing t with
  | nil => rfl
  | cons e es ih => simp [ih (t.step e)]; omega

/-- The list of `dt` values handed to `userFunc` over a run, computed
directly: the first iteration receives `t.nextDt`, later ones whatever the
previous `step` set up. -/
def dts (t : PTask) : List ℚ → List ℚ
  | [] => []
  | e :: es => t.nextDt :: dts (t.step e) es

theorem run_dtLog (t : PTask) (es : List ℚ) :
    (t.run es).dtLog = t.dtLog ++ t.dts es := by
  induction es generalizing t with
  | nil => simp [dts]
  | cons e es ih =>
    rw [run_cons, ih (t.step e)]
    simp [dts, PTask.step]

theorem dts_length (t : PTask) (es : List ℚ) : (t.dts es).length = es.length := by
  induction es generalizing t with
  | nil => rfl
  | cons e es ih => simp [dts, ih (t.step e)]

theorem dts_append (t : PTask) (es fs : List ℚ) :
    t.dts (es ++ fs) = t.dts es ++ (t.run es).dts fs := by
  induction es generalizing t with
  | nil => simp [dts]
  | cons e es ih => simp [dts, ih (t.step e)]

theorem run_dtLog_fixed (t : PTask) (es : List ℚ) (hv : t.vdtFlg = false)
    (hn : t.nextDt = t.period) (hd : ∀ x ∈ t.dtLog, x = t.period) :
    ∀ x ∈ (t.run es).dtLog, x = t.period := by
  induction es generalizing t with
  | nil => simpa using hd
  | cons e es ih =>
    intro x hx
    rw [run_cons] at hx
    have h2 : (t.step e).nextDt = (t.step e).period := by
      simp [PTask.step, PTask.period, hv]
    have h3 : ∀ y ∈ (t.step e).dtLog, y = (t.step e).period := by
      intro y hy
      simp only [PTask.step, List.mem_append, List.mem_singleton] at hy
      rw [step_period]
      rcases hy with hy | hy
      · exact hd y hy
      · rw [hy, hn]
    have := ih (t.step e) (by simpa using hv) h2 h3 x hx
    rwa [step_period] at this

theorem run_bfStats_length (t : PTask) (es : List ℚ) :
    ((t.run es).bfStats).length
      = t.bfStats.length + es.countP (fun e => decide (t.period < e)) := by
  induction es generalizing t with
  | nil => simp
  | cons e es ih =>
    rw [run_cons, ih (t.step e)]
    simp only [step_period, step_bfStats, List.countP_cons]
    by_cases h : t.period < e
    · simp [h]
      omega
    · simp [h]

theorem run_bfStats_nonneg (t : PTask) (es : List ℚ)
    (h : ∀ x ∈ t.bfStats, 0 ≤ x) : ∀ x ∈ (t.run es).bfStats, 0 ≤ x := by
  induction es generalizing t with
  | nil => simpa using h
  | cons e es ih =>
    rw [run_cons]
    refine ih (t.step e) ?_
    intro x hx
    by_cases he : t.period < e
    · simp only [PTask.step, he, if_pos, List.mem_append, List.mem_singleton] at hx
      rcases hx with hx | hx
      · exact h x hx
      · rw [hx]
        exact le_of_lt (by linarith)
    · simp only [PTask.step, he, if_neg, not_false_iff] at hx
      exact h x hx

theorem runShut_zero (shut : ℕ → Bool) (el : ℕ → ℚ) (t : PTask) :
    PTask.runShut shut el 0 t = t := rfl

theorem runShut_stopped (shut : ℕ → Bool) (el : ℕ → ℚ) (fuel : ℕ) (t : PTask)
    (h : shut t.tcnt = true) : PTask.runShut shut el fuel t = t := by
  cases fuel with
  | zero => rfl
  | succ n => simp [PTask.runShut, h]

theorem runShut_tcnt_le (shut : ℕ → Bool) (el : ℕ → ℚ) (k : ℕ)
    (hmono : ∀ i j, i ≤ j → shut i = true → shut j = true) (hk : shut k = true) :
    ∀ fuel (t : PTask), t.tcnt ≤ k → (PTask.runShut shut el fuel t).tcnt ≤ k := by
  intro fuel
  induction fuel with
  | zero => intro t ht; simpa [PTask.runShut] using ht
  | succ n ih =>
    intro t ht
    by_cases hs : shut t.tcnt = true
    · simpa [PTask.runShut, hs] using ht
    · have hlt : t.tcnt < k := by
        rcases Nat.lt_or_ge t.tcnt k with h | h
        · exact h
        · exact absurd (hmono k t.tcnt h hk) (by simpa using hs)
      simp only [PTask.runShut, hs, if_neg, Bool.false_eq_true, not_false_iff]
      exact ih (t.step (el t.tcnt)) (by rw [step_tcnt]; omega)

theorem runShut_dtLog_tcnt (shut : ℕ → Bool) (el : ℕ → ℚ) :
    ∀ fuel (t : PTask),
      (PTask.runShut shut el fuel t).dtLog.length + t.tcnt
        = (PTask.runShut shut el fuel t).tcnt + t.dtLog.length := by
  intro fuel
  induction fuel with
  | zero => intro t; simp [PTask.runShut, Nat.add_comm]
  | succ n ih =>
    intro t
    by_cases hs : shut t.tcnt = true
    · simp [PTask.runShut, hs, Nat.add_comm]
    · simp only [PTask.runShut, hs, if_neg, Bool.false_eq_true, not_false_iff]
      have := ih (t.step (el t.tcnt))
      rw [step_tcnt, step_dtLog, List.length_append, List.length_singleton] at this
      omega

theorem runShut_rate (shut : ℕ → Bool) (el : ℕ → ℚ) :
    ∀ fuel (t : PTask), (PTask.runShut shut el fuel t).rate = t.rate := by
  intro fuel
  induction fuel with
  | zero => intro t; rfl
  | succ n ih =>
    intro t
    by_cases hs : shut t.tcnt = true
    · simp [PTask.runShut, hs]
    · simp only [PTask.runShut, hs, if_neg, Bool.false_eq_true, not_false_iff]
      rw [ih (t.step (el t.tcnt)), step_rate]

end PTask

/-- C1: with `variableDeltaTimeEnabled = false`, every `dt` value passed to
`userFunc` over any execution of the loop equals `period = 1/rate`, regardless
of whether any prior iteration overran its period. -/
theorem claim_C1 (rate : ℚ) (es : List ℚ) (dt : ℚ)
    (hdt : dt ∈ ((PTask.init rate false).run es).dtLog) : dt = 1 / rate := by
  have h := PTask.run_dtLog_fixed (PTask.init rate false) es rfl rfl
    (by intro x hx; simp [PTask.init] at hx)
  simpa [PTask.period, PTask.init] using h dt hdt

/-- Witness for C1 at rate 1 and elapsed times `[2, 1]` (iteration 0 overruns
its period of 1 second, yet both recorded `dt` values equal `1/1`). -/
theorem claim_C1_witness :
    (1 : ℚ) ∈ ((PTask.init 1 false).run [2, 1]).dtLog ∧ (1 : ℚ) = 1 / 1 := by
  refine ⟨?_, claim_C1 1 [2, 1] 1 ?_⟩ <;>
    norm_num [PTask.run, PTask.step, PTask.init, PTask.period]

/-- C2: if exactly K of the iterations have elapsed time exceeding the period,
then the busted-frame statistic holds exactly K samples, each of which,
being `elapsed - period`, is nonnegative. -/
theorem claim_C2 (rate : ℚ) (vdt : Bool) (es : List ℚ) (K : ℕ)
    (hK : es.countP (fun e => decide ((1 / rate : ℚ) < e)) = K) :
    ((PTask.init rate vdt).run es).bfStats.length = K ∧
      ∀ x ∈ ((PTask.init rate vdt).run es).bfStats, 0 ≤ x := by
  constructor
  · rw [PTask.run_bfStats_length]
    simpa [PTask.init, PTask.period] using hK
  · exact PTask.run_bfStats_nonneg _ _ (by intro x hx; simp [PTask.init] at hx)

/-- Witness for C2 at rate 1 with elapsed times `[2, 1, 5]`: two overruns. -/
theorem claim_C2_witness :
    ((PTask.init 1 false).run [2, 1, 5]).bfStats.length = 2 ∧
      ∀ x ∈ ((PTask.init 1 false).run [2, 1, 5]).bfStats, 0 ≤ x :=
  claim_C2 1 false [2, 1, 5] 2 (by norm_num [List.countP_cons])

/-- C3: with `variableDeltaTimeEnabled = true`, the iteration immediately
following a busted frame (iteration `pre.length`, whose elapsed time `e`
exceeded the period) receives a `dt` value that is at least the period. -/
theorem claim_C3 (rate : ℚ) (pre : List ℚ) (e : ℚ) (post : List ℚ) (d : ℚ)
    (he : 1 / rate < e)
    (hd : (((PTask.init rate true).run (pre ++ e :: post)).dtLog)[pre.length + 1]? = some d) :
    1 / rate ≤ d := by
  set t0 : PTask := PTask.init rate true with ht0
  rw [PTask.run_dtLog, PTask.dts_append] at hd
  have hlen : (t0.dts pre).length = pre.length := PTask.dts_length t0 pre
  have hinit : t0.dtLog = [] := rfl
  rw [hinit, List.nil_append, List.getElem?_append_right (by omega)] at hd
  rw [hlen] at hd
  have hidx : pre.length + 1 - pre.length = 1 := by omega
  rw [hidx] at hd
  set t1 : PTask := t0.run pre with ht1
  have hv : t1.vdtFlg = true := by rw [ht1, PTask.run_vdtFlg]; rfl
  have hp : t1.period = 1 / rate := by rw [ht1, PTask.run_period]; rfl
  cases post with
  | nil =>
    simp [PTask.dts] at hd
  | cons p ps =>
    have : t1.dts (e :: p :: ps) = t1.nextDt :: (t1.step e).nextDt :: (((t1.step e).step p).dts ps) := rfl
    rw [this] at hd
    simp only [List.getElem?_cons_succ, List.getElem?_cons_zero, Option.some_inj] at hd
    have hne : (t1.step e).nextDt = e := by
      show (if t1.vdtFlg ∧ t1.period < e then e else t1.period) = e
      rw [if_pos ⟨hv, by rw [hp]; exact he⟩]
    rw [← hd, hne]
    exact le_of_lt he

/-- Witness for C3: rate 1, iteration 0 overruns (elapsed 3 > period 1), so
iteration 1 receives `dt = 3 ≥ 1`. -/
theorem claim_C3_witness :
    (1 : ℚ) / 1 ≤ (3 : ℚ) :=
  claim_C3 1 [] 3 [1] 3 (by norm_num)
    (by norm_num [PTask.run, PTask.step, PTask.init, PTask.period, PTask.run_dtLog, PTask.dts])

/-- C4: constructing with a non-positive rate fails fast with
`InvalidRateError`, and every successfully constructed task has a strictly
positive rate (so `period = 1/rate` is never formed with a zero rate, and no
task constructed from a non-positive rate exists to be started). -/
theorem claim_C4 (rate : ℚ) :
    (rate ≤ 0 → construct rate = Except.error ConstructError.invalidRate) ∧
      (∀ t, construct rate = Except.ok t → 0 < t.getRate ∧ t.getRate = rate) := by
  constructor
  · intro h
    simp [construct, h]
  · intro t ht
    by_cases h : rate ≤ 0
    · simp [construct, h] at ht
    · push_neg at h
      rw [construct, if_neg (not_le.mpr h)] at ht
      injection ht with ht
      subst ht
      exact ⟨by simpa [PTask.init, PTask.getRate] using h, rfl⟩

/-- Witness for C4: rate -1 is rejected with `InvalidRateError`. -/
theorem claim_C4_witness :
    construct (-1) = Except.error ConstructError.invalidRate :=
  (claim_C4 (-1)).1 (by norm_num)

/-- C5: the total frame count starts at zero, is incremented by exactly one
per completed loop iteration (after N iterations it equals N), and is
monotonically non-decreasing as the run extends. -/
theorem claim_C5 (rate : ℚ) (vdt : Bool) :
    (PTask.init rate vdt).getTotalFrameCount = 0 ∧
      (∀ (t : PTask) (e : ℚ), (t.step e).getTotalFrameCount = t.getTotalFrameCount + 1) ∧
      (∀ es : List ℚ, ((PTask.init rate vdt).run es).getTotalFrameCount = es.length) ∧
      (∀ (t : PTask) (es more : List ℚ),
        (t.run es).getTotalFrameCount ≤ (t.run (es ++ more)).getTotalFrameCount) := by
  refine ⟨rfl, fun t e => rfl, fun es => ?_, fun t es more => ?_⟩
  · rw [PTask.getTotalFrameCount, PTask.run_tcnt]
    simp [PTask.init]
  · rw [PTask.getTotalFrameCount, PTask.getTotalFrameCount, PTask.run_append,
      PTask.run_tcnt ((t.run es))]
    omega

/-- C6: with a cooperative shutdown signal that, once raised, stays raised,
and that is raised by iteration boundary k: the loop never completes more
than k iterations, `userFunc` is invoked at most k times (never after the
signal is observed), and once the signal is observed at a boundary the loop
exits immediately, leaving the task state untouched. -/
theorem claim_C6 (shut : ℕ → Bool) (el : ℕ → ℚ) (rate : ℚ) (vdt : Bool) (k : ℕ)
    (hmono : ∀ i j, i ≤ j → shut i = true → shut j = true) (hk : shut k = true) :
    (∀ fuel, (PTask.runShut shut el fuel (PTask.init rate vdt)).getTotalFrameCount ≤ k ∧
        (PTask.runShut shut el fuel (PTask.init rate vdt)).dtLog.length ≤ k) ∧
      (∀ fuel (t : PTask), shut t.tcnt = true → PTask.runShut shut el fuel t = t) := by
  constructor
  · intro fuel
    have h1 := PTask.runShut_tcnt_le shut el k hmono hk fuel (PTask.init rate vdt) (by simp [PTask.init])
    have h2 := PTask.runShut_dtLog_tcnt shut el fuel (PTask.init rate vdt)
    have h0 : (PTask.init rate vdt).tcnt = 0 := rfl
    have h3 : (PTask.init rate vdt).dtLog.length = 0 := rfl
    rw [h0, h3] at h2
    exact ⟨h1, by omega⟩
  · exact fun fuel t h => PTask.runShut_stopped shut el fuel t h

/-- Witness for C6: shutdown raised from boundary 3 on; even with fuel 10 the
loop completes at most 3 frames. -/
theorem claim_C6_witness :
    (PTask.runShut (fun i => decide (3 ≤ i)) (fun _ => (1 : ℚ)) 10 (PTask.init 1 false)).getTotalFrameCount ≤ 3 :=
  ((claim_C6 (fun i => decide (3 ≤ i)) (fun _ => (1 : ℚ)) 1 false 3
      (fun i j hij hi => by simp only [decide_eq_true_eq] at hi ⊢; omega)
      (by decide)).1 10).1

/-- C7: the rate is fixed at construction: `getRate` is unchanged by loop
steps, whole runs, shutdown-polled runs and by toggling the
variable-delta-time flag, and equals the rate supplied at creation. -/
theorem claim_C7 (rate : ℚ) (vdt : Bool) :
    (PTask.init rate vdt).getRate = rate ∧
      (∀ (t : PTask) (e : ℚ), (t.step e).getRate = t.getRate) ∧
      (∀ (t : PTask) (b : Bool), (t.setVariableDeltaTimeFlag b).1.getRate = t.getRate) ∧
      (∀ (t : PTask) (es : List ℚ), (t.run es).getRate = t.getRate) ∧
      (∀ (shut : ℕ → Bool) (el : ℕ → ℚ) (fuel : ℕ) (t : PTask),
        (PTask.runShut shut el fuel t).getRate = t.getRate) := by
  refine ⟨rfl, fun t e => rfl, fun t b => rfl, fun t es => ?_, fun shut el fuel t => ?_⟩
  · exact PTask.run_rate t es
  · exact PTask.runShut_rate shut el fuel t

/-!
Part 2: `iodevice` adapters, embedded from the source under `src/`.
-/

namespace iodevice

/-- State of an `Ai2DiSwitch` (member data of `Ai2DiSwitch.cpp`): the device
is considered enabled (`devEnb`) only once a channel has been set. -/
structure Ai2DiSwitch where
  devEnb : Bool
  location : ℕ
  channel : ℕ
  level : ℚ
  invert : Bool
  deriving Repr, DecidableEq

/-- Default-constructed switch (in-class initializers of the header:
`devEnb` false, numeric fields zero, `invert` false). -/
def Ai2DiSwitch.mk0 : Ai2DiSwitch :=
  { devEnb := false, location := 0, channel := 0, level := 0, invert := false }

/-- `Ai2DiSwitch::setLocation`. -/
def Ai2DiSwitch.setLocation (s : Ai2DiSwitch) (v : ℕ) : Ai2DiSwitch × Bool :=
  ({ s with location := v }, true)

/-- `Ai2DiSwitch::setChannel`: also raises `devEnb`. -/
def Ai2DiSwitch.setChannel (s : Ai2DiSwitch) (v : ℕ) : Ai2DiSwitch × Bool :=
  ({ s with channel := v, devEnb := true }, true)

/-- `Ai2DiSwitch::setLevel`. -/
def Ai2DiSwitch.setLevel (s : Ai2DiSwitch) (v : ℚ) : Ai2DiSwitch × Bool :=
  ({ s with level := v }, true)

/-- `Ai2DiSwitch::setInvertFlag`. -/
def Ai2DiSwitch.setInvertFlag (s : Ai2DiSwitch) (f : Bool) : Ai2DiSwitch × Bool :=
  ({ s with invert := f }, true)

/-- `Ai2DiSwitch::processInputs`.  The `IoDevice` is modelled by its
`getAnalogInput` channel-to-sample map (`none` for a null pointer); the
`IoData` by its discrete-input assignment (`none` for a null pointer), which
the call returns updated.  `vin` starts at 0 and is overwritten only when the
device is non-null and `devEnb` is set, exactly as in the source. -/
def Ai2DiSwitch.processInputs (s : Ai2DiSwitch) (device : Option (ℕ → ℚ))
    (inData : Option (ℕ → Bool)) : Option (ℕ → Bool) :=
  let vin : ℚ :=
    match device with
    | some dev => if s.devEnb then dev s.channel else 0
    | none => 0
  match inData with
  | some d =>
      let flag := decide (s.level ≤ vin)
      let flag := if s.invert then !flag else flag
      some (fun n => if n = s.location then flag else d n)
  | none => none

/-- C8: with a non-null `IoData`, `processInputs` sets the discrete input at
index `location` to `(vin >= level) XOR invert` and leaves every other index
unchanged, where `vin` is the device sample at the configured channel, or 0
when the device pointer is null or no channel has ever been set (`devEnb`
false). -/
theorem claim_C8 (s : Ai2DiSwitch) (dev : ℕ → ℚ) (d : ℕ → Bool) :
    (s.devEnb = true →
      s.processInputs (some dev) (some d)
        = some (fun n => if n = s.location
            then Bool.xor (decide (s.level ≤ dev s.channel)) s.invert else d n)) ∧
    (s.devEnb = false →
      s.processInputs (some dev) (some d)
        = some (fun n => if n = s.location
            then Bool.xor (decide (s.level ≤ (0 : ℚ))) s.invert else d n)) ∧
    (s.processInputs none (some d)
        = some (fun n => if n = s.location
            then Bool.xor (decide (s.level ≤ (0 : ℚ))) s.invert else d n)) := by
  have hflag : ∀ b : Bool, (if s.invert then !b else b) = Bool.xor b s.invert := by
    intro b
    cases s.invert <;> cases b <;> rfl
  refine ⟨fun h => ?_, fun h => ?_, ?_⟩
  · simp [Ai2DiSwitch.processInputs, h, hflag]
  · simp [Ai2DiSwitch.processInputs, h, hflag]
  · simp [Ai2DiSwitch.processInputs, hflag]

/-- Witness for C8: enabled device sampling 5 with level 0 and no inversion
drives discrete input 2 to true. -/
theorem claim_C8_witness :
    Ai2DiSwitch.processInputs ⟨true, 2, 1, 0, false⟩ (some fun _ => (5 : ℚ)) (some fun _ => false)
      = some (fun n => if n = 2 then Bool.xor (decide ((0 : ℚ) ≤ 5)) false else false) :=
  (claim_C8 ⟨true, 2, 1, 0, false⟩ (fun _ => (5 : ℚ)) (fun _ => false)).1 rfl

/-- Joystick event, `struct js_event` of `linux/joystick.h`: `type` and
`number` are 8-bit, `value` a signed 16-bit quantity. -/
structure JsEvent where
  type : ℕ
  value : ℤ
  number : ℕ
  deriving Repr, DecidableEq

/-- `JS_EVENT_BUTTON` of `linux/joystick.h`. -/
def JS_EVENT_BUTTON : ℕ := 1

/-- `JS_EVENT_AXIS` of `linux/joystick.h`. -/
def JS_EVENT_AXIS : ℕ := 2

/-- State of a `UsbJoystick` (the `numAI`/`numDI` counters and the `inData`/
`inBits` sample arrays inherited from the controller base class, modelled as
total maps). -/
structure UsbJoystick where
  numAI : ℕ
  numDI : ℕ
  inData : ℕ → ℚ
  inBits : ℕ → Bool

/-- `UsbJoystick::reset` (`UsbJoystick_linux.cpp`), restricted to the counter
updates on a successfully opened stream: the driver-reported axis and button
counts are clamped to the `MAX_AI` / `MAX_DI` capacities. -/
def UsbJoystick.reset (j : UsbJoystick) (maxAI maxDI numOfAxes numOfBtns : ℕ) : UsbJoystick :=
  { j with
    numAI := if numOfAxes > maxAI then maxAI else numOfAxes
    numDI := if numOfBtns > maxDI then maxDI else numOfBtns }

/-- One iteration of the event loop in `UsbJoystick::processInputs`: the
event type is masked with `~JS_EVENT_INIT` (on the 8-bit `type` this clears
bit 7, i.e. is a bitwise and with 127), and button/axis events update
`inBits`/`inData` only when the event's `number` is within `numDI`/`numAI`. -/
def UsbJoystick.processEvent (j : UsbJoystick) (e : JsEvent) : UsbJoystick :=
  let masked := e.type &&& 127
  if masked = JS_EVENT_BUTTON then
    if e.number < j.numDI then
      { j with inBits := fun n => if n = e.number then decide (e.value ≠ 0) else j.inBits n }
    else j
  else if masked = JS_EVENT_AXIS then
    if e.number < j.numAI then
      { j with inData := fun n => if n = e.number then (e.value : ℚ) / 32767 else j.inData n }
    else j
  else j

/-- `UsbJoystick::processInputs`: drain the pending event queue (the
sequence of complete `js_event` reads), decoding each in turn. -/
def UsbJoystick.processInputs (j : UsbJoystick) (events : List JsEvent) : UsbJoystick :=
  events.foldl UsbJoystick.processEvent j

theorem processEvent_numAI (j : UsbJoystick) (e : JsEvent) :
    (j.processEvent e).numAI = j.numAI := by
  simp only [UsbJoystick.processEvent]
  split_ifs <;> rfl

theorem processEvent_numDI (j : UsbJoystick) (e : JsEvent) :
    (j.processEvent e).numDI = j.numDI := by
  simp only [UsbJoystick.processEvent]
  split_ifs <;> rfl

theorem processEvent_inBits_oob (j : UsbJoystick) (e : JsEvent) (n : ℕ)
    (h : j.numDI ≤ n) : (j.processEvent e).inBits n = j.inBits n := by
  simp only [UsbJoystick.processEvent]
  split_ifs with h1 h2 h3 <;> try rfl
  have : ¬ n = e.number := by omega
  simp [this]

theorem processEvent_inData_oob (j : UsbJoystick) (e : JsEvent) (n : ℕ)
    (h : j.numAI ≤ n) : (j.processEvent e).inData n = j.inData n := by
  simp only [UsbJoystick.processEvent]
  split_ifs with h1 h2 h3 <;> try rfl
  have : ¬ n = e.number := by omega
  simp [this]

theorem processInputs_inBits_oob (j : UsbJoystick) (events : List JsEvent) (n : ℕ)
    (h : j.numDI ≤ n) : (j.processInputs events).inBits n = j.inBits n := by
  induction events generalizing j with
  | nil => rfl
  | cons e es ih =>
    show ((j.processEvent e).processInputs es).inBits n = j.inBits n
    rw [ih (j.processEvent e) (by rw [processEvent_numDI]; exact h),
      processEvent_inBits_oob j e n h]

theorem processInputs_inData_oob (j : UsbJoystick) (events : List JsEvent) (n : ℕ)
    (h : j.numAI ≤ n) : (j.processInputs events).inData n = j.inData n := by
  induction events generalizing j with
  | nil => rfl
  | cons e es ih =>
    show ((j.processEvent e).processInputs es).inData n = j.inData n
    rw [ih (j.processEvent e) (by rw [processEvent_numAI]; exact h),
      processEvent_inData_oob j e n h]

/-- C9: every array access stays in bounds: after `reset` the axis and button
counts are clamped to `MAX_AI` / `MAX_DI`, and the event loop leaves every
`inBits` cell at or beyond `numDI` and every `inData` cell at or beyond
`numAI` untouched (out-of-range events are discarded). -/
theorem claim_C9 (maxAI maxDI numOfAxes numOfBtns : ℕ) (j : UsbJoystick)
    (events : List JsEvent) (n : ℕ) :
    ((j.reset maxAI maxDI numOfAxes numOfBtns).numAI ≤ maxAI ∧
      (j.reset maxAI maxDI numOfAxes numOfBtns).numDI ≤ maxDI) ∧
      (j.numDI ≤ n → (j.processInputs events).inBits n = j.inBits n) ∧
      (j.numAI ≤ n → (j.processInputs events).inData n = j.inData n) := by
  refine ⟨⟨?_, ?_⟩, fun h => processInputs_inBits_oob j events n h,
    fun h => processInputs_inData_oob j events n h⟩
  · show (if numOfAxes > maxAI then maxAI else numOfAxes) ≤ maxAI
    split_ifs <;> omega
  · show (if numOfBtns > maxDI then maxDI else numOfBtns) ≤ maxDI
    split_ifs <;> omega

/-- Witness for C9: a joystick with one button receives a button event for
index 5; bit 5 is left untouched. -/
theorem claim_C9_witness :
    (UsbJoystick.processInputs ⟨1, 1, fun _ => 0, fun _ => false⟩ [⟨1, 1, 5⟩]).inBits 5
      = (fun _ => false : ℕ → Bool) 5 :=
  (claim_C9 2 3 7 9 ⟨1, 1, fun _ => 0, fun _ => false⟩ [⟨1, 1, 5⟩] 5).2.1 (by decide)

end iodevice

namespace graphics

/-- `NumericReadout::isInputValueValid` (`NumericReadout.cpp`): `ok` starts
true and is cleared when a set bound excludes the value;  the
`UNDEFINED_VALUE` sentinel (declared outside `src/`) is received as the
parameter `undefined`, and `val` is the `getInputValue()` result. -/
def isInputValueValid (undefined minValid maxValid val : ℚ) : Bool :=
  if (minValid ≠ undefined ∧ val < minValid) ∨ (maxValid ≠ undefined ∧ val > maxValid) then
    false
  else
    true

/-- C10: the input value is accepted exactly when each set bound admits it —
`minValid` unset (the sentinel) or `val ≥ minValid`, and `maxValid` unset or
`val ≤ maxValid`; with both bounds unset every value is accepted. -/
theorem claim_C10 (undefined minValid maxValid val : ℚ) :
    (isInputValueValid undefined minValid maxValid val = true ↔
      ((minValid = undefined ∨ minValid ≤ val) ∧ (maxValid = undefined ∨ val ≤ maxValid))) ∧
      isInputValueValid undefined undefined undefined val = true := by
  constructor
  · simp only [isInputValueValid]
    split_ifs with h
    · simp only [Bool.false_eq_true, false_iff]
      intro hc
      rcases h with ⟨h1, h2⟩ | ⟨h1, h2⟩
      · rcases hc.1 with h3 | h3
        · exact h1 h3
        · linarith
      · rcases hc.2 with h3 | h3
        · exact h1 h3
        · linarith
    · simp only [true_iff]
      push_neg at h
      constructor
      · by_cases hm : minValid = undefined
        · exact Or.inl hm
        · exact Or.inr (h.1 hm)
      · by_cases hm : maxValid = undefined
        · exact Or.inl hm
        · exact Or.inr (h.2 hm)
  · simp [isInputValueValid]

end graphics

end Mixr
